import Mathlib

/-!
Shallow embedding of `hanzo/httptools/messaging.py` (warc-tools): a stream
oriented parser for HTTP requests and responses.  Strings are modelled as
`List Char`; the Python 2 `StringIO` buffer is modelled as a byte log plus a
single read/write position; fallible operations (Python exceptions) return
`Except PErr`.  The `while` loops of the source are modelled with a fuel
argument of `text.length + 1`: every loop iteration of the source that
neither breaks nor exits consumes at least one character, so any run of the
source that terminates is reproduced exactly; a run of the source that loops
forever (e.g. a negative chunk size) is mapped to the sentinel error
`PErr.noProgress`.
-/

set_option maxRecDepth 8000

abbrev Str := List Char

/-- Python `CRLF = '\r\n'`. -/
def crlfS : Str := ['\r', '\n']

/-- Python `str.lower()` (ASCII data only in this code base). -/
def pyLower (s : Str) : Str := s.map Char.toLower

/-- Characters stripped by Python `str.strip()` / `str.rstrip()`. -/
def pyIsSpace (c : Char) : Bool :=
  c = ' ' || c = '\t' || c = '\n' || c = '\r' || c = '\x0b' || c = '\x0c'

/-- Python `str.rstrip()`. -/
def pyRStrip (s : Str) : Str := (s.reverse.dropWhile pyIsSpace).reverse

/-- Python `str.strip()`. -/
def pyStrip (s : Str) : Str := pyRStrip (s.dropWhile pyIsSpace)

/-- Whether `needle` starts `hay` (helper for the Python `in` test). -/
def leadEq : Str → Str → Bool
  | [], _ => true
  | _ :: _, [] => false
  | a :: as, b :: bs => a = b && leadEq as bs

/-- Python `needle in hay` substring containment. -/
def pyIn (needle : Str) : Str → Bool
  | [] => needle.isEmpty
  | c :: rest => leadEq needle (c :: rest) || pyIn needle rest

/-- Index of the first occurrence of `"\r\n"`, Python `text.find(CRLF)`
(`none` for `-1`). -/
def findCRLF : Str → Option Nat
  | [] => none
  | c :: rest =>
      if c = '\r' ∧ rest.head? = some '\n' then some 0
      else (findCRLF rest).map (· + 1)

/-- Python `s.split(sep, 1)`: split at the first occurrence of `sep`;
`none` when `sep` does not occur (the source then unpacks and raises). -/
def splitOnce (sep : Char) : Str → Option (Str × Str)
  | [] => none
  | c :: rest =>
      if c = sep then some ([], rest)
      else (splitOnce sep rest).map (fun q => (c :: q.1, q.2))

/-- Python `s.split(' ', 2)` unpacked into exactly three names:
`none` models the `ValueError` raised when fewer than two spaces occur. -/
def splitSpace2 (s : Str) : Option (Str × Str × Str) :=
  match splitOnce ' ' s with
  | none => none
  | some (a, r) =>
      match splitOnce ' ' r with
      | none => none
      | some (b, c) => some (a, b, c)

/-- Python `int(s)` (base 10): optional surrounding whitespace, optional
sign, at least one decimal digit. -/
def pyInt10 (s : Str) : Option Int :=
  let t := pyStrip s
  let (sign, u) : Int × Str :=
    match t with
    | '-' :: r => (-1, r)
    | '+' :: r => (1, r)
    | r => (1, r)
  if u ≠ [] ∧ u.all Char.isDigit then
    some (sign * (u.foldl (fun a c => a * 10 + (c.toNat - '0'.toNat)) 0 : Nat))
  else none

def isHexDig (c : Char) : Bool :=
  c.isDigit || ('a' ≤ c.toLower && c.toLower ≤ 'f')

def hexDigVal (c : Char) : Nat :=
  if c.isDigit then c.toNat - '0'.toNat else c.toLower.toNat - 'a'.toNat + 10

/-- Python `int(s, 16)`: optional surrounding whitespace, optional sign,
optional `0x`/`0X` prefixed form, at least one hexadecimal digit. -/
def pyInt16 (s : Str) : Option Int :=
  let t := pyStrip s
  let (sign, u) : Int × Str :=
    match t with
    | '-' :: r => (-1, r)
    | '+' :: r => (1, r)
    | r => (1, r)
  let u : Str :=
    match u with
    | '0' :: x :: r => if x = 'x' ∨ x = 'X' then r else '0' :: x :: r
    | r => r
  if u ≠ [] ∧ u.all isHexDig then
    some (sign * (u.foldl (fun a c => a * 16 + hexDigVal c) 0 : Nat))
  else none

/-- Python 2 `StringIO`: a character log with one read/write position. -/
structure StrBuf where
  data : Str := []
  pos : Nat := 0
  deriving DecidableEq, Repr

/-- `StringIO.write`: overwrite at the current position, extending as needed. -/
def StrBuf.write (b : StrBuf) (s : Str) : StrBuf :=
  { data := b.data.take b.pos ++ s ++ b.data.drop (b.pos + s.length),
    pos := b.pos + s.length }

def StrBuf.seek (b : StrBuf) (n : Nat) : StrBuf := { b with pos := n }

/-- The portion of a string up to and including the first `'\n'`
(everything when there is none), as read by `StringIO.readline`. -/
def takeLine : Str → Str
  | [] => []
  | c :: rest => if c = '\n' then [c] else c :: takeLine rest

/-- `StringIO.readline`: read from the position through the next `'\n'`. -/
def StrBuf.readline (b : StrBuf) : Str × StrBuf :=
  let line := takeLine (b.data.drop b.pos)
  (line, { b with pos := b.pos + line.length })

/-- The Python exceptions that can escape the parser, one constructor per
raise site (`ValueError` from unpacking a start line, `ValueError` from
unpacking a header/trailer line without a colon, `ValueError` from a
non-hexadecimal chunk size or non-decimal length/status, `IndexError` from
popping an empty field list); `noProgress` marks a non-terminating source
loop (see the module comment). -/
inductive PErr
  | startLineUnpack
  | headerNoColon
  | trailerNoColon
  | chunkSizeInvalid
  | contentLengthInvalid
  | responseCodeInvalid
  | popEmptyHeaders
  | popEmptyTrailers
  | noProgress
  deriving DecidableEq, Repr

/-- `HTTPHeader.mode`: the framing mode strings `'close'`, `'length'`,
`'chunked'` of the source. -/
inductive FMode
  | close
  | length
  | chunked
  deriving DecidableEq, Repr

/-- The `HTTPHeader` base class state. -/
structure HTTPHeader where
  headers : List (Str × Str) := []
  keep_alive : Bool := true
  mode : FMode := .close
  content_length : Option Int := none
  encoding : Option Str := none
  trailers : List (Str × Str) := []
  deriving DecidableEq, Repr

/-- `HTTPHeader.add_trailer`. -/
def HTTPHeader.add_trailer (h : HTTPHeader) (line : Str) : Except PErr HTTPHeader :=
  if line.head? = some ' ' ∨ line.head? = some '\t' then
    match h.trailers.getLast? with
    | none => .error .popEmptyTrailers
    | some (k, v) =>
        .ok { h with trailers := h.trailers.dropLast ++ [(k, v ++ ' ' :: pyStrip line)] }
  else if line = crlfS then .ok h
  else
    match splitOnce ':' line with
    | none => .error .trailerNoColon
    | some (name, value) =>
        .ok { h with trailers := h.trailers ++ [(pyStrip name, pyStrip value)] }

/-- The `content-length` arm of the header scan loop in
`HTTPHeader.add_header` (the only arm that can raise: `int(value)`). -/
def scanCL (h : HTTPHeader) (name value : Str) : Except PErr HTTPHeader :=
  if name = "content-length".data then
    if h.mode = .close then
      match pyInt10 value with
      | none => .error .contentLengthInvalid
      | some n => .ok { h with content_length := some n, mode := .length }
    else .ok h
  else .ok h

/-- The `transfer-encoding` / `content-encoding` / `connection` arms of the
header scan loop in `HTTPHeader.add_header`. -/
def scanRest (h : HTTPHeader) (name value : Str) : HTTPHeader :=
  let h := if name = "transfer-encoding".data then
      (if pyIn "chunked".data value then { h with mode := FMode.chunked } else h)
    else h
  let h := if name = "content-encoding".data then { h with encoding := some value } else h
  if name = "connection".data then
    (if pyIn "keep-alive".data value then { h with keep_alive := true }
     else if pyIn "close".data value then { h with keep_alive := false }
     else h)
  else h

/-- One iteration of the header scan loop in `HTTPHeader.add_header`
(the body of `for name, value in self.headers`, on the lowercased name and
value). -/
def scanField (h : HTTPHeader) (f : Str × Str) : Except PErr HTTPHeader :=
  match scanCL h (pyLower f.1) (pyLower f.2) with
  | .error e => .error e
  | .ok h => .ok (scanRest h (pyLower f.1) (pyLower f.2))

/-- The header scan loop of `HTTPHeader.add_header`, in insertion order. -/
def scanFields (h : HTTPHeader) : List (Str × Str) → Except PErr HTTPHeader
  | [] => .ok h
  | f :: rest =>
      match scanField h f with
      | .error e => .error e
      | .ok h => scanFields h rest

/-- `HTTPHeader.add_header`. -/
def HTTPHeader.add_header (h : HTTPHeader) (line : Str) : Except PErr HTTPHeader :=
  if line.head? = some ' ' ∨ line.head? = some '\t' then
    match h.headers.getLast? with
    | none => .error .popEmptyHeaders
    | some (k, v) =>
        .ok { h with headers := h.headers.dropLast ++ [(k, v ++ ' ' :: pyStrip line)] }
  else if line = crlfS then
    match scanFields h h.headers with
    | .error e => .error e
    | .ok h => .ok (if h.mode = .close then { h with keep_alive := false } else h)
  else
    match splitOnce ':' line with
    | none => .error .headerNoColon
    | some (name, value) =>
        .ok { h with headers := h.headers ++ [(pyStrip name, pyStrip value)] }

/-- `HTTPHeader.body_is_chunked`. -/
def HTTPHeader.body_is_chunked (h : HTTPHeader) : Bool := h.mode = .chunked

/-- `HTTPHeader.body_length`. -/
def HTTPHeader.body_length (h : HTTPHeader) : Option Int :=
  if h.mode = .length then h.content_length else none

/-- `RequestHeader`. -/
structure RequestHeader extends HTTPHeader where
  method : Str := []
  target_uri : Str := []
  version : Str := []
  deriving DecidableEq, Repr

/-- `RequestHeader.set_start_line`:
`self.method, self.target_uri, self.version = line.rstrip().split(' ', 2)`. -/
def RequestHeader.set_start_line (r : RequestHeader) (line : Str) :
    Except PErr RequestHeader :=
  match splitSpace2 (pyRStrip line) with
  | none => .error .startLineUnpack
  | some (m, t, v) =>
      let r := { r with method := m, target_uri := t, version := v }
      .ok (if v = "HTTP/1.0".data then { r with keep_alive := false } else r)

/-- `RequestHeader.has_body`: `self.mode in ('chunked', 'length')`. -/
def RequestHeader.has_body (r : RequestHeader) : Bool :=
  r.mode = FMode.chunked ∨ r.mode = FMode.length

/-- Modelled from the spec: the repository imports `Methods` from its
`semantics` module, which is not under src/.  Per the spec it is a method
classifier, "does this method's response ever carry a body — e.g., not for
HEAD"; `Methods.no_body` is the collection of such methods. -/
def Methods_no_body : List Str := ["HEAD".data]

/-- Modelled from the spec: the repository imports `Codes` from its
`semantics` module, which is not under src/.  Per the spec it is a
status-code classifier, "does this code's response ever carry a body";
`Codes.no_body` holds the 1xx informational class together with
204 No Content and 304 Not Modified. -/
def Codes_no_body (c : Int) : Bool :=
  (100 ≤ c && c < 200) || c = 204 || c = 304

/-- Modelled from the spec: `Codes.Continue`, the status code of the
"interim/1xx" Continue classification used by `ResponseParser.feed`. -/
def Codes_Continue : Int := 100

/-- `ResponseHeader` (the back reference `request` is the paired request's
header, used only for body-presence classification). -/
structure ResponseHeader extends HTTPHeader where
  request : RequestHeader
  version : Option Str := none
  code : Option Int := none
  phrase : Option Str := none
  deriving DecidableEq, Repr

/-- `ResponseHeader.set_start_line`:
`self.version, self.code, self.phrase = line.rstrip().split(' ', 2)`
followed by `self.code = int(self.code)`. -/
def ResponseHeader.set_start_line (r : ResponseHeader) (line : Str) :
    Except PErr ResponseHeader :=
  match splitSpace2 (pyRStrip line) with
  | none => .error .startLineUnpack
  | some (v, c, ph) =>
      match pyInt10 c with
      | none => .error .responseCodeInvalid
      | some code =>
          let r := { r with version := some v, code := some code, phrase := some ph }
          .ok (if v = "HTTP/1.0".data then { r with keep_alive := false } else r)

/-- `ResponseHeader.has_body`. -/
def ResponseHeader.has_body (r : ResponseHeader) : Bool :=
  if r.request.method ∈ Methods_no_body then false
  else if (match r.code with | some c => Codes_no_body c | none => false) then false
  else if r.mode = FMode.chunked then true
  else if r.mode = FMode.length then
    (match r.content_length with | some n => n > 0 | none => false)
  else true

/-- The closed set of header variants owned by a parser (the source uses
subclassing; the only polymorphic behaviours are `set_start_line` and
`has_body`). -/
inductive MsgHeader
  | req : RequestHeader → MsgHeader
  | resp : ResponseHeader → MsgHeader
  deriving DecidableEq, Repr

/-- The `HTTPHeader` base-class portion of either variant. -/
def MsgHeader.core : MsgHeader → HTTPHeader
  | .req r => r.toHTTPHeader
  | .resp r => r.toHTTPHeader

/-- Store back an updated base-class portion. -/
def MsgHeader.setCore : MsgHeader → HTTPHeader → MsgHeader
  | .req r, h => .req { r with toHTTPHeader := h }
  | .resp r, h => .resp { r with toHTTPHeader := h }

def MsgHeader.set_start_line : MsgHeader → Str → Except PErr MsgHeader
  | .req r, l => (r.set_start_line l).map MsgHeader.req
  | .resp r, l => (r.set_start_line l).map MsgHeader.resp

def MsgHeader.has_body : MsgHeader → Bool
  | .req r => r.has_body
  | .resp r => r.has_body

def MsgHeader.add_header (m : MsgHeader) (l : Str) : Except PErr MsgHeader :=
  (m.core.add_header l).map m.setCore

def MsgHeader.add_trailer (m : MsgHeader) (l : Str) : Except PErr MsgHeader :=
  (m.core.add_trailer l).map m.setCore

def MsgHeader.body_is_chunked (m : MsgHeader) : Bool := m.core.body_is_chunked

def MsgHeader.body_length (m : MsgHeader) : Option Int := m.core.body_length

/-- `HTTPParser.mode`: `'start'`, `'headers'`, `'body'`, `'end'`,
`'incomplete'`. -/
inductive PMode
  | start
  | headers
  | body
  | end_
  | incomplete
  deriving DecidableEq, Repr

/-- `ChunkReader.mode`: `'start'`, `'chunk'`, `'trailer'`, `'end'`. -/
inductive CMode
  | start
  | chunk
  | trailer
  | end_
  deriving DecidableEq, Repr

/-- `ChunkReader` instance state. -/
structure ChunkState where
  mode : CMode := .start
  remaining : Int := 0
  deriving DecidableEq, Repr

/-- The body strategy installed in `HTTPParser.body_reader`
(`ChunkReader` or `LengthReader` with its `remaining` count). -/
inductive BodyReader
  | chunked : ChunkState → BodyReader
  | length : Int → BodyReader
  deriving DecidableEq, Repr

/-- `HTTPParser` instance state. -/
structure HTTPParser where
  buffer : StrBuf
  offset : Nat
  header : MsgHeader
  body_offset : Int := -1
  mode : PMode := .start
  body_reader : Option BodyReader := none
  deriving DecidableEq, Repr

/-- `HTTPParser.__init__(buffer, header)`: `self.offset = self.buffer.tell()`. -/
def HTTPParser.init (buf : StrBuf) (h : MsgHeader) : HTTPParser :=
  { buffer := buf, offset := buf.pos, header := h }

/-- `HTTPParser.headers_complete`. -/
def HTTPParser.headers_complete (p : HTTPParser) : Bool :=
  p.mode = PMode.end_ ∨ p.mode = PMode.body

/-- `HTTPParser.complete`. -/
def HTTPParser.complete (p : HTTPParser) : Bool := p.mode = PMode.end_

/-- `HTTPParser.close`. -/
def HTTPParser.close (p : HTTPParser) : HTTPParser :=
  if p.mode = PMode.start ∨ (p.body_reader = none ∧ p.mode = PMode.body) then
    { p with mode := PMode.end_ }
  else if p.mode ≠ PMode.end_ then { p with mode := PMode.incomplete }
  else p

/-- `HTTPParser.feed_line`: buffer the text; when the fed chunk contains a
CRLF, write through it, seek back to the parse cursor, read one line, and
return the remainder of the chunk as leftover. -/
def HTTPParser.feed_line (p : HTTPParser) (text : Str) :
    Option Str × HTTPParser × Str :=
  match findCRLF text with
  | some k =>
      let nl := k + 2
      let b := p.buffer.write (text.take nl)
      let b := b.seek p.offset
      let (line, b) := b.readline
      (some line, { p with buffer := b, offset := b.pos }, text.drop nl)
  | none => (none, { p with buffer := p.buffer.write text }, [])

/-- `HTTPParser.feed_length`: feed at most `remaining` characters into the
buffer, returning the new remaining count and the leftover. -/
def HTTPParser.feed_length (p : HTTPParser) (text : Str) (remaining : Int) :
    Int × HTTPParser × Str :=
  let body := text.take remaining.toNat
  let rest := text.drop remaining.toNat
  let b := p.buffer.write body
  (remaining - body.length, { p with buffer := b, offset := b.pos }, rest)

/-- `HTTPParser.feed_start`. -/
def HTTPParser.feed_start (p : HTTPParser) (text : Str) :
    Except PErr (HTTPParser × Str) :=
  match p.feed_line text with
  | (some line, p, text) =>
      if line ≠ crlfS then
        match p.header.set_start_line line with
        | .error e => .error e
        | .ok h => .ok ({ p with header := h, mode := PMode.headers }, text)
      else .ok (p, text)
  | (none, p, text) => .ok (p, text)

/-- The `while text:` loop of `HTTPParser.feed_headers`, with fuel. -/
def feedHeadersLoop : Nat → HTTPParser → Str → Except PErr (HTTPParser × Str)
  | _, p, [] => .ok (p, [])
  | 0, _, _ => .error .noProgress
  | fuel + 1, p, text =>
      match p.feed_line text with
      | (some line, p, text) =>
          match p.header.add_header line with
          | .error e => .error e
          | .ok h =>
              let p := { p with header := h }
              if line = crlfS then .ok ({ p with mode := PMode.body }, text)
              else feedHeadersLoop fuel p text
      | (none, p, text) => feedHeadersLoop fuel p text

/-- `HTTPParser.feed_headers`. -/
def HTTPParser.feed_headers (p : HTTPParser) (text : Str) :
    Except PErr (HTTPParser × Str) :=
  feedHeadersLoop (text.length + 1) p text

/-- The `if self.mode == 'start':` block of `ChunkReader.feed`: read the
chunk-size line `int(line.split(';', 1)[0], 16)`. -/
def chunkStart (cs : ChunkState) (p : HTTPParser) (text : Str) :
    Except PErr (ChunkState × HTTPParser × Str) :=
  if cs.mode = CMode.start then
    match p.feed_line text with
    | (some line, p, text) =>
        let sizeTok := match splitOnce ';' line with
          | some (a, _) => a
          | none => line
        match pyInt16 sizeTok with
        | none => .error .chunkSizeInvalid
        | some chunk =>
            .ok ({ remaining := chunk,
                   mode := if chunk = 0 then CMode.trailer else CMode.chunk },
                 p, text)
    | (none, p, text) => .ok (cs, p, text)
  else .ok (cs, p, text)

/-- The `if text and self.mode == 'chunk':` block of `ChunkReader.feed`:
consume chunk data, then the chunk's trailing line. -/
def chunkData (cs : ChunkState) (p : HTTPParser) (text : Str) :
    ChunkState × HTTPParser × Str :=
  if text ≠ [] ∧ cs.mode = CMode.chunk then
    let (cs, p, text) :=
      if cs.remaining > 0 then
        let (r, p, text) := p.feed_length text cs.remaining
        ({ cs with remaining := r }, p, text)
      else (cs, p, text)
    if cs.remaining = 0 then
      match p.feed_line text with
      | (some line, p2, text2) =>
          if line ≠ [] then ({ cs with mode := CMode.start }, p2, text2)
          else (cs, p2, text2)
      | (none, p2, text2) => (cs, p2, text2)
    else (cs, p, text)
  else (cs, p, text)

/-- The `if text and self.mode == 'trailer':` block of `ChunkReader.feed`. -/
def chunkTrailer (cs : ChunkState) (p : HTTPParser) (text : Str) :
    Except PErr (ChunkState × HTTPParser × Str) :=
  if text ≠ [] ∧ cs.mode = CMode.trailer then
    match p.feed_line text with
    | (some line, p, text) =>
        match p.header.add_trailer line with
        | .error e => .error e
        | .ok h =>
            let p := { p with header := h }
            if line = crlfS then .ok ({ cs with mode := CMode.end_ }, p, text)
            else .ok (cs, p, text)
    | (none, p, text) => .ok (cs, p, text)
  else .ok (cs, p, text)

/-- One iteration of the `while text:` loop of `ChunkReader.feed`; the
final component tells whether the loop `break`s (`if self.mode == 'end':
parser.mode = 'end'; break`). -/
def chunkStep (cs : ChunkState) (p : HTTPParser) (text : Str) :
    Except PErr (ChunkState × HTTPParser × Str × Bool) :=
  match chunkStart cs p text with
  | .error e => .error e
  | .ok (cs, p, text) =>
      let (cs, p, text) := chunkData cs p text
      match chunkTrailer cs p text with
      | .error e => .error e
      | .ok (cs, p, text) =>
          if cs.mode = CMode.end_ then
            .ok (cs, { p with mode := PMode.end_ }, text, true)
          else .ok (cs, p, text, false)

/-- The `while text:` loop of `ChunkReader.feed`, with fuel. -/
def chunkLoop : Nat → ChunkState → HTTPParser → Str →
    Except PErr (ChunkState × HTTPParser × Str)
  | _, cs, p, [] => .ok (cs, p, [])
  | 0, _, _, _ => .error .noProgress
  | fuel + 1, cs, p, text =>
      match chunkStep cs p text with
      | .error e => .error e
      | .ok (cs, p, text, brk) =>
          if brk then .ok (cs, p, text) else chunkLoop fuel cs p text

/-- `LengthReader.feed`. -/
def lengthFeed (remaining : Int) (p : HTTPParser) (text : Str) :
    Int × HTTPParser × Str :=
  let (remaining, p, text) :=
    if remaining > 0 then p.feed_length text remaining
    else (remaining, p, text)
  if remaining ≤ 0 then (remaining, { p with mode := PMode.end_ }, text)
  else (remaining, p, text)

/-- The `if text and self.mode == 'start':` block of `HTTPParser.feed`. -/
def stageStart (p : HTTPParser) (text : Str) : Except PErr (HTTPParser × Str) :=
  if text ≠ [] ∧ p.mode = PMode.start then p.feed_start text
  else .ok (p, text)

/-- The `if text and self.mode == 'headers':` block of `HTTPParser.feed`,
including the body-strategy selection that runs when the header block just
finished. -/
def stageHeaders (p : HTTPParser) (text : Str) : Except PErr (HTTPParser × Str) :=
  if text ≠ [] ∧ p.mode = PMode.headers then
    match p.feed_headers text with
    | .error e => .error e
    | .ok (p, text) =>
        if p.mode = PMode.body then
          if ¬ p.header.has_body then .ok ({ p with mode := PMode.end_ }, text)
          else
            let p := { p with body_offset := (p.offset : Int) }
            if p.header.body_is_chunked then
              .ok ({ p with body_reader := some (BodyReader.chunked {}) }, text)
            else
              match p.header.body_length with
              | some len => .ok ({ p with body_reader := some (BodyReader.length len) }, text)
              | none => .ok ({ p with body_reader := none }, text)
        else .ok (p, text)
  else .ok (p, text)

/-- The `if text and self.mode == 'body':` block of `HTTPParser.feed`. -/
def stageBody (p : HTTPParser) (text : Str) : Except PErr (HTTPParser × Str) :=
  if text ≠ [] ∧ p.mode = PMode.body then
    match p.body_reader with
    | some (BodyReader.chunked cs) =>
        match chunkLoop (text.length + 1) cs p text with
        | .error e => .error e
        | .ok (cs, p, text) =>
            .ok ({ p with body_reader := some (BodyReader.chunked cs) }, text)
    | some (BodyReader.length r) =>
        let (r, p, text) := lengthFeed r p text
        .ok ({ p with body_reader := some (BodyReader.length r) }, text)
    | none => .ok ({ p with buffer := p.buffer.write text }, [])
  else .ok (p, text)

/-- `HTTPParser.feed`. -/
def hfeed (p : HTTPParser) (text : Str) : Except PErr (HTTPParser × Str) :=
  match stageStart p text with
  | .error e => .error e
  | .ok (p, text) =>
      match stageHeaders p text with
      | .error e => .error e
      | .ok (p, text) => stageBody p text

/-- A fresh `ResponseHeader` for `request` (all other attributes at their
`__init__` values). -/
def freshResponse (request : RequestHeader) : ResponseHeader :=
  { request := request }

/-- `ResponseParser` state: the inherited `HTTPParser` plus the ordered
`interim` archive. -/
structure ResponseParser where
  parser : HTTPParser
  interim : List ResponseHeader := []
  deriving DecidableEq, Repr

/-- `ResponseParser.__init__(buffer, request_header)`. -/
def ResponseParser.init (buf : StrBuf) (request : RequestHeader) : ResponseParser :=
  { parser := HTTPParser.init buf (MsgHeader.resp (freshResponse request)) }

/-- `ResponseParser.feed`: the base feed, then at most one interim (`code ==
Codes.Continue`) absorption, re-feeding the leftover through the base feed. -/
def rfeed (rp : ResponseParser) (text : Str) : Except PErr (ResponseParser × Str) :=
  match hfeed rp.parser text with
  | .error e => .error e
  | .ok (p, text) =>
      match p.header with
      | MsgHeader.resp r =>
          if p.complete ∧ r.code = some Codes_Continue then
            let p := { p with header := MsgHeader.resp (freshResponse r.request),
                              body_offset := -1,
                              mode := PMode.start,
                              body_reader := none }
            match hfeed p text with
            | .error e => .error e
            | .ok (p, text) =>
                .ok ({ parser := p, interim := rp.interim ++ [r] }, text)
          else .ok ({ rp with parser := p }, text)
      | MsgHeader.req _ => .ok ({ rp with parser := p }, text)

/-- `RequestParser(buffer)` over an empty buffer. -/
def initReq : HTTPParser := HTTPParser.init {} (MsgHeader.req {})

/-- Driving a parser one character per `feed` call, accumulating the
leftovers returned along the way. -/
def feedBytes (p : HTTPParser) : Str → Except PErr (HTTPParser × Str)
  | [] => .ok (p, [])
  | c :: cs =>
      match hfeed p [c] with
      | .error e => .error e
      | .ok (p, left) =>
          match feedBytes p cs with
          | .error e => .error e
          | .ok (p, lefts) => .ok (p, left ++ lefts)

/-- The parser of a successful feed (used to name intermediate states). -/
def okState (e : Except PErr (HTTPParser × Str)) (dflt : HTTPParser) : HTTPParser :=
  match e with
  | .ok (p, _) => p
  | .error _ => dflt

/-- The leftover of a successful feed. -/
def okLeft (e : Except PErr (HTTPParser × Str)) : Str :=
  match e with
  | .ok (_, t) => t
  | .error _ => []

/-- The response parser of a successful `rfeed`. -/
def okRState (e : Except PErr (ResponseParser × Str)) (dflt : ResponseParser) :
    ResponseParser :=
  match e with
  | .ok (rp, _) => rp
  | .error _ => dflt

/-- The leftover of a successful `rfeed`. -/
def okRLeft (e : Except PErr (ResponseParser × Str)) : Str :=
  match e with
  | .ok (_, t) => t
  | .error _ => []

/-- The header fields accumulated so far. -/
def headersOf (p : HTTPParser) : List (Str × Str) := p.header.core.headers

/-- The parsed request method, when the parser's header is a request header. -/
def reqMethodOf (p : HTTPParser) : Option Str :=
  match p.header with
  | MsgHeader.req r => some r.method
  | MsgHeader.resp _ => none

/-- The parsed status code of a response parser's current header. -/
def respCodeOf (rp : ResponseParser) : Option Int :=
  match rp.parser.header with
  | MsgHeader.resp r => r.code
  | MsgHeader.req _ => none

/-- The bytes accumulated after the recorded body offset. -/
def bodyBytes (p : HTTPParser) : Str := p.buffer.data.drop p.body_offset.toNat

/-! Concrete message material used by the claims. -/

def getMsg : Str := "GET / HTTP/1.1\r\nHost: h\r\n\r\n".data

def c1whole : HTTPParser := okState (hfeed initReq getMsg) initReq

def c1bytes : HTTPParser := okState (feedBytes initReq getMsg) initReq

def c7head : Str := "POST / HTTP/1.1\r\nTransfer-Encoding: chunked\r\n\r\n".data

def c7body : Str := "4\r\nWiki\r\n5\r\npedia\r\n0\r\n\r\n".data

def c7p1 : HTTPParser := okState (hfeed initReq c7head) initReq

def c7p2 : HTTPParser := okState (hfeed c7p1 c7body) initReq

def c5stB : HTTPParser := okState (hfeed initReq "GET / HTTP/1.1\r\n".data) initReq

def c6st : HTTPParser := okState (hfeed initReq "\r\nX".data) initReq

def reqGET : RequestHeader :=
  { method := "GET".data, target_uri := "/".data, version := "HTTP/1.1".data }

def respInit : ResponseParser := ResponseParser.init {} reqGET

def c4single : Str :=
  "HTTP/1.1 100 Continue\r\n\r\nHTTP/1.1 200 OK\r\nContent-Length: 2\r\n\r\nok".data

def c4rpA : ResponseParser := okRState (rfeed respInit c4single) respInit

def c4double : Str :=
  ("HTTP/1.1 100 Continue\r\n\r\nHTTP/1.1 100 Continue\r\n\r\n" ++
   "HTTP/1.1 200 OK\r\nContent-Length: 2\r\n\r\nok").data

def c4rp1 : ResponseParser := okRState (rfeed respInit c4double) respInit

def c4left : Str := okRLeft (rfeed respInit c4double)

def c4rp2 : ResponseParser := okRState (rfeed c4rp1 c4left) respInit

def c8double : Str :=
  "HTTP/1.1 100 Continue\r\n\r\nHTTP/1.1 100 Continue\r\n\r\n".data

def c8rp1 : ResponseParser := okRState (rfeed respInit c8double) respInit

def c8rp2 : ResponseParser := okRState (rfeed c8rp1 []) respInit

/-- C1: chunk-boundary independence fails in the code.  Feeding the valid
message `"GET / HTTP/1.1\r\nHost: h\r\n\r\n"` whole parses the start line
and the `Host` header and completes, but feeding the same bytes one byte
per `feed` call never completes any line — `feed_line` searches for CRLF
only inside the newly fed chunk, so a one-byte chunk can never contain it —
leaving the parser in `start` with no header fields parsed (and every byte
merely buffered). -/
theorem c1_one_byte_feeds_diverge_from_whole_feed :
    (hfeed initReq getMsg = .ok (c1whole, [])
      ∧ c1whole.complete = true
      ∧ reqMethodOf c1whole = some "GET".data
      ∧ headersOf c1whole = [("Host".data, "h".data)])
    ∧ (feedBytes initReq getMsg = .ok (c1bytes, [])
      ∧ c1bytes.complete = false
      ∧ c1bytes.mode = PMode.start
      ∧ headersOf c1bytes = []
      ∧ reqMethodOf c1bytes = some []
      ∧ c1bytes.buffer.data = getMsg) :=
  ⟨⟨rfl, rfl, rfl, rfl⟩, ⟨rfl, rfl, rfl, rfl, rfl, rfl⟩⟩

/-- C5: each structural parse failure is raised out of the very `feed`
call that consumes the offending line, as a distinct error: a start line
that cannot be split into three components, a header line with no colon
(fed to a parser that already consumed a good start line), and a
non-hexadecimal chunk-size token (fed to a parser whose headers declared
chunked framing). -/
theorem c5_structural_failures_raise :
    hfeed initReq "GET /\r\n".data = .error PErr.startLineUnpack
    ∧ (hfeed initReq "GET / HTTP/1.1\r\n".data = .ok (c5stB, [])
       ∧ hfeed c5stB "X-Bad\r\n".data = .error PErr.headerNoColon)
    ∧ hfeed c7p1 "zz\r\n".data = .error PErr.chunkSizeInvalid
    ∧ (PErr.startLineUnpack ≠ PErr.headerNoColon
       ∧ PErr.startLineUnpack ≠ PErr.chunkSizeInvalid
       ∧ PErr.headerNoColon ≠ PErr.chunkSizeInvalid) :=
  ⟨rfl, ⟨rfl, rfl⟩, rfl, by decide⟩

/-- C9: a continuation line (leading space) fed to `add_header` when no
header field has been accumulated pops an empty list and raises; likewise
for `add_trailer` with an empty trailer list. -/
theorem c9_continuation_pop_on_empty :
    ({} : HTTPHeader).add_header " x\r\n".data = .error PErr.popEmptyHeaders
    ∧ ({} : HTTPHeader).add_trailer " x\r\n".data = .error PErr.popEmptyTrailers :=
  ⟨rfl, rfl⟩

/-- C7 counterexample: after headers declaring `Transfer-Encoding:
chunked`, feeding `"4\r\nWiki\r\n5\r\npedia\r\n0\r\n\r\n"` does reach
`End`, but the bytes appended after the body offset are not `"Wikipedia"`
(the chunk-size lines and terminators are written to the buffer too). -/
theorem c7_body_bytes_cex :
    hfeed c7p1 c7body = .ok (c7p2, [])
    ∧ c7p2.mode = PMode.end_
    ∧ bodyBytes c7p2 ≠ "Wikipedia".data :=
  ⟨rfl, rfl, by decide⟩

/-- C7 amended: the parser ends in `End`, and what is appended after the
body offset is the raw chunked transfer encoding itself,
`"4\r\nWiki\r\n5\r\npedia\r\n0\r\n\r\n"`, whose chunk-data bytes
concatenate to `"Wikipedia"`. -/
theorem c7_chunked_raw_stream_after_body_offset :
    (hfeed initReq c7head = .ok (c7p1, []) ∧ c7p1.header.core.mode = FMode.chunked)
    ∧ hfeed c7p1 c7body = .ok (c7p2, [])
    ∧ c7p2.mode = PMode.end_
    ∧ bodyBytes c7p2 = c7body
    ∧ "Wiki".data ++ "pedia".data = "Wikipedia".data :=
  ⟨⟨rfl, rfl⟩, rfl, rfl, rfl, rfl⟩

/-- C4 counterexample: two interim responses followed by the final
response, all delivered in one `feed` call, do NOT chain: only the first
interim is absorbed; the call returns with the second interim as the
current completed header (code 100) and the entire final response as
unconsumed leftover. -/
theorem c4_interim_chain_cex :
    rfeed respInit c4double = .ok (c4rp1, c4left)
    ∧ c4rp1.interim.length = 1
    ∧ respCodeOf c4rp1 = some 100
    ∧ c4rp1.parser.complete = true
    ∧ c4left = "HTTP/1.1 200 OK\r\nContent-Length: 2\r\n\r\nok".data
    ∧ c4left ≠ [] :=
  ⟨rfl, rfl, rfl, rfl, rfl, by decide⟩

/-- C4 amended: a completed interim (code 100) header is archived in
order, a fresh `ResponseHeader` for the same request replaces it, the
parser resets and the leftover is re-fed — but at most once per `feed`
call: a second interim completed by the re-fed leftover stays current
(parser `End`, code 100) until the next `feed` call absorbs it. -/
theorem c4_interim_absorbed_once_per_feed :
    (rfeed respInit c4single = .ok (c4rpA, [])
      ∧ (c4rpA.interim.map fun r => r.code) = [some 100]
      ∧ (c4rpA.interim.map fun r => r.request) = [reqGET]
      ∧ respCodeOf c4rpA = some 200
      ∧ c4rpA.parser.complete = true
      ∧ bodyBytes c4rpA.parser = "ok".data)
    ∧ (rfeed c4rp1 c4left = .ok (c4rp2, [])
      ∧ (c4rp2.interim.map fun r => r.code) = [some 100, some 100]
      ∧ respCodeOf c4rp2 = some 200
      ∧ c4rp2.parser.complete = true
      ∧ bodyBytes c4rp2.parser = "ok".data) :=
  ⟨⟨rfl, rfl, rfl, rfl, rfl, rfl⟩, ⟨rfl, rfl, rfl, rfl, rfl⟩⟩

/-- C8 counterexample: a response parser that completed an interim (code
100) message at the end of a `feed` call is complete, yet a further
`feed("")` changes its observable state: the pending interim is absorbed
(the interim list grows and the parser resets to `start`, so `complete()`
becomes false). -/
theorem c8_feed_empty_changes_state_cex :
    c8rp1.parser.complete = true
    ∧ rfeed c8rp1 [] = .ok (c8rp2, [])
    ∧ c8rp1.interim.length = 1
    ∧ c8rp2.interim.length = 2
    ∧ c8rp2.parser.complete = false
    ∧ c8rp2 ≠ c8rp1 :=
  ⟨rfl, rfl, rfl, rfl, rfl, by decide⟩

/-- C6 counterexample: a `feed` on a fresh parser whose chunk starts with
a blank line (tolerated before a start line) returns the rest of the chunk
as non-empty leftover while the parser is still in `start` and not
complete. -/
theorem c6_leftover_without_completion_cex :
    hfeed initReq "\r\nX".data = .ok (c6st, "X".data)
    ∧ "X".data ≠ []
    ∧ c6st.complete = false
    ∧ c6st.mode = PMode.start :=
  ⟨rfl, by decide, rfl, rfl⟩

/-- C3: `close()` yields `End` (and `complete()` becomes true) exactly when
the parser is in `start`, or in `body` with no installed body reader; in
every other non-`end` state it yields the terminal `incomplete`. -/
theorem c3_close_semantics (p : HTTPParser) :
    ((p.mode = PMode.start ∨ (p.mode = PMode.body ∧ p.body_reader = none)) →
      p.close.mode = PMode.end_ ∧ p.close.complete = true)
    ∧ (p.mode ≠ PMode.end_ →
      ¬(p.mode = PMode.start ∨ (p.mode = PMode.body ∧ p.body_reader = none)) →
      p.close.mode = PMode.incomplete) := by
  constructor
  · intro hA
    have hA2 : p.mode = PMode.start ∨ (p.body_reader = none ∧ p.mode = PMode.body) := by
      tauto
    rw [HTTPParser.close, if_pos hA2]
    exact ⟨rfl, by simp [HTTPParser.complete]⟩
  · intro hne hA
    have hA2 : ¬(p.mode = PMode.start ∨ (p.body_reader = none ∧ p.mode = PMode.body)) := by
      tauto
    rw [HTTPParser.close, if_neg hA2, if_pos hne]

/-- Witness for C3: closing a fresh parser (still in `start`) completes it;
closing a parser whose headers are still incomplete marks it `incomplete`. -/
theorem c3_close_semantics_witness :
    (HTTPParser.close initReq).mode = PMode.end_
    ∧ (HTTPParser.close initReq).complete = true
    ∧ (HTTPParser.close c5stB).mode = PMode.incomplete := by
  refine ⟨((c3_close_semantics initReq).1 (Or.inl rfl)).1,
          ((c3_close_semantics initReq).1 (Or.inl rfl)).2,
          (c3_close_semantics c5stB).2 (by decide) (by decide)⟩

/-! Helper facts for the framing-resolution scan (C2). -/

theorem scanCL_ok_of_not_close (h : HTTPHeader) (name value : Str) (h1 : HTTPHeader)
    (hm : h.mode ≠ FMode.close) (hs : scanCL h name value = .ok h1) : h1 = h := by
  rw [scanCL] at hs
  by_cases hn : name = "content-length".data
  · rw [if_pos hn, if_neg hm] at hs
    exact (Except.ok.inj hs).symm
  · rw [if_neg hn] at hs
    exact (Except.ok.inj hs).symm

theorem scanCL_ok_of_other_name (h : HTTPHeader) (name value : Str) (h1 : HTTPHeader)
    (hn : name ≠ "content-length".data) (hs : scanCL h name value = .ok h1) : h1 = h := by
  rw [scanCL, if_neg hn] at hs
  exact (Except.ok.inj hs).symm

theorem scanRest_mode (h : HTTPHeader) (name value : Str) :
    (scanRest h name value).mode =
      (if name = "transfer-encoding".data ∧ pyIn "chunked".data value = true
       then FMode.chunked else h.mode) := by
  rw [scanRest]
  split_ifs <;> simp_all

theorem scanField_mode_chunked (h : HTTPHeader) (f : Str × Str) (h1 : HTTPHeader)
    (hc : h.mode = FMode.chunked) (hs : scanField h f = .ok h1) :
    h1.mode = FMode.chunked := by
  rw [scanField] at hs
  cases hcl : scanCL h (pyLower f.1) (pyLower f.2) with
  | error e => rw [hcl] at hs; exact absurd hs (by simp)
  | ok hmid =>
      rw [hcl] at hs
      have hmh : hmid = h :=
        scanCL_ok_of_not_close h _ _ hmid (by rw [hc]; simp) hcl
      have h1e : h1 = scanRest hmid (pyLower f.1) (pyLower f.2) :=
        (Except.ok.inj hs).symm
      rw [h1e, scanRest_mode, hmh]
      split_ifs <;> simp [hc]

theorem scanFields_mode_chunked (l : List (Str × Str)) (h h1 : HTTPHeader)
    (hc : h.mode = FMode.chunked) (hs : scanFields h l = .ok h1) :
    h1.mode = FMode.chunked := by
  induction l generalizing h with
  | nil =>
      rw [scanFields] at hs
      rw [← Except.ok.inj hs]; exact hc
  | cons f rest ih =>
      rw [scanFields] at hs
      cases hsf : scanField h f with
      | error e => rw [hsf] at hs; exact absurd hs (by simp)
      | ok h2 =>
          rw [hsf] at hs
          exact ih h2 (scanField_mode_chunked h f h2 hc hsf) hs

theorem scanFields_te_chunked (l : List (Str × Str)) (h h1 : HTTPHeader)
    (hs : scanFields h l = .ok h1)
    (hte : ∃ f ∈ l, pyLower f.1 = "transfer-encoding".data
        ∧ pyIn "chunked".data (pyLower f.2) = true) :
    h1.mode = FMode.chunked := by
  induction l generalizing h with
  | nil => simp at hte
  | cons f rest ih =>
      rw [scanFields] at hs
      cases hsf : scanField h f with
      | error e => rw [hsf] at hs; exact absurd hs (by simp)
      | ok h2 =>
          rw [hsf] at hs
          rcases hte with ⟨g, hg, hgn, hgv⟩
          rcases List.mem_cons.mp hg with hgf | hgr
          · subst hgf
            have h2m : h2.mode = FMode.chunked := by
              rw [scanField] at hsf
              cases hcl : scanCL h (pyLower g.1) (pyLower g.2) with
              | error e => rw [hcl] at hsf; exact absurd hsf (by simp)
              | ok hmid =>
                  rw [hcl] at hsf
                  have hmh : hmid = h :=
                    scanCL_ok_of_other_name h _ _ hmid (by rw [hgn]; decide) hcl
                  have h2e : h2 = scanRest hmid (pyLower g.1) (pyLower g.2) :=
                    (Except.ok.inj hsf).symm
                  rw [h2e, scanRest_mode, if_pos ⟨hgn, hgv⟩]
            exact scanFields_mode_chunked rest h2 h1 h2m hs
          · exact ih h2 hs ⟨g, hgr, hgn, hgv⟩

theorem scanFields_no_signal (l : List (Str × Str)) (h h1 : HTTPHeader)
    (hs : scanFields h l = .ok h1)
    (hcl : ∀ f ∈ l, pyLower f.1 ≠ "content-length".data)
    (hte : ∀ f ∈ l, ¬(pyLower f.1 = "transfer-encoding".data
        ∧ pyIn "chunked".data (pyLower f.2) = true)) :
    h1.mode = h.mode := by
  induction l generalizing h with
  | nil =>
      rw [scanFields] at hs
      rw [← Except.ok.inj hs]
  | cons f rest ih =>
      rw [scanFields] at hs
      cases hsf : scanField h f with
      | error e => rw [hsf] at hs; exact absurd hs (by simp)
      | ok h2 =>
          rw [hsf] at hs
          have h2m : h2.mode = h.mode := by
            rw [scanField] at hsf
            cases hcl2 : scanCL h (pyLower f.1) (pyLower f.2) with
            | error e => rw [hcl2] at hsf; exact absurd hsf (by simp)
            | ok hmid =>
                rw [hcl2] at hsf
                have hmh : hmid = h :=
                  scanCL_ok_of_other_name h _ _ hmid (hcl f (List.mem_cons_self f rest)) hcl2
                have h2e : h2 = scanRest hmid (pyLower f.1) (pyLower f.2) :=
                  (Except.ok.inj hsf).symm
                rw [h2e, scanRest_mode, if_neg (hte f (List.mem_cons_self f rest)), hmh]
          rw [← h2m]
          exact ih h2 hs (fun g hg => hcl g (List.mem_cons_of_mem f hg))
            (fun g hg => hte g (List.mem_cons_of_mem f hg))

/-- C2: when the blank line ending the header block is processed starting
from the undetermined (`close`) framing mode, the accumulated fields are
scanned in insertion order; if any field is a `Transfer-Encoding`
containing `chunked` the resulting framing is `chunked` (so such a field
appearing after a `Content-Length` wins, and no `Content-Length` field can
change an already-chunked decision); and if no `Content-Length` field and
no chunked `Transfer-Encoding` field occurs at all, the framing stays
`close` and `keep_alive` is forced false regardless of any `Connection`
field. -/
theorem c2_framing_resolution (h h1 : HTTPHeader)
    (hm : h.mode = FMode.close)
    (hok : h.add_header crlfS = .ok h1) :
    ((∃ f ∈ h.headers, pyLower f.1 = "transfer-encoding".data
        ∧ pyIn "chunked".data (pyLower f.2) = true) → h1.mode = FMode.chunked)
    ∧ ((∀ f ∈ h.headers, pyLower f.1 ≠ "content-length".data) →
       (∀ f ∈ h.headers, ¬(pyLower f.1 = "transfer-encoding".data
          ∧ pyIn "chunked".data (pyLower f.2) = true)) →
       h1.mode = FMode.close ∧ h1.keep_alive = false) := by
  rw [HTTPHeader.add_header, if_neg (by decide), if_pos rfl] at hok
  cases hsc : scanFields h h.headers with
  | error e => rw [hsc] at hok; exact absurd hok (by simp)
  | ok h2 =>
      rw [hsc] at hok
      have h1e : h1 = if h2.mode = FMode.close then { h2 with keep_alive := false } else h2 :=
        (Except.ok.inj hok).symm
      constructor
      · intro hte
        have h2m : h2.mode = FMode.chunked := scanFields_te_chunked h.headers h h2 hsc hte
        rw [h1e, if_neg (by rw [h2m]; simp)]
        exact h2m
      · intro hnc hnt
        have h2m : h2.mode = FMode.close := by
          rw [scanFields_no_signal h.headers h h2 hsc hnc hnt, hm]
        rw [h1e, if_pos h2m]
        exact ⟨h2m, rfl⟩

def c2wIn : HTTPHeader :=
  { headers := [("Content-Length".data, "5".data),
                ("Transfer-Encoding".data, "chunked".data)] }

def c2wOut : HTTPHeader :=
  match c2wIn.add_header crlfS with
  | .ok h => h
  | .error _ => c2wIn

def c2wIn2 : HTTPHeader := { headers := [("Connection".data, "keep-alive".data)] }

def c2wOut2 : HTTPHeader :=
  match c2wIn2.add_header crlfS with
  | .ok h => h
  | .error _ => c2wIn2

/-- Witness for C2: a `Transfer-Encoding: chunked` field listed after a
`Content-Length` field yields chunked framing; a lone `Connection:
keep-alive` field (no framing signal) yields `close` framing with
`keep_alive` forced false. -/
theorem c2_framing_resolution_witness :
    (c2wIn.add_header crlfS = .ok c2wOut ∧ c2wOut.mode = FMode.chunked)
    ∧ (c2wIn2.add_header crlfS = .ok c2wOut2 ∧ c2wOut2.mode = FMode.close
       ∧ c2wOut2.keep_alive = false) := by
  refine ⟨⟨rfl, (c2_framing_resolution c2wIn c2wOut rfl rfl).1 (by decide)⟩,
          ⟨rfl, ?_, ?_⟩⟩
  · exact ((c2_framing_resolution c2wIn2 c2wOut2 rfl rfl).2 (by decide) (by decide)).1
  · exact ((c2_framing_resolution c2wIn2 c2wOut2 rfl rfl).2 (by decide) (by decide)).2

/-- C8 amended: `feed("")` on a complete base parser (hence on any
`RequestParser`) changes nothing; on a complete `ResponseParser` it changes
nothing provided the completed header is not an interim (`Continue`)
header — a completed interim header is absorbed by the next `feed` call,
even `feed("")`, which does change state. -/
theorem c8_feed_empty_preserves_complete :
    (∀ p : HTTPParser, p.complete = true → hfeed p [] = .ok (p, []))
    ∧ (∀ rp : ResponseParser, rp.parser.complete = true →
        respCodeOf rp ≠ some Codes_Continue → rfeed rp [] = .ok (rp, [])) := by
  have base : ∀ p : HTTPParser, hfeed p [] = .ok (p, []) := by
    intro p
    simp [hfeed, stageStart, stageHeaders, stageBody]
  constructor
  · intro p _
    exact base p
  · intro rp _ hne
    rw [rfeed, base rp.parser]
    dsimp only
    cases hh : rp.parser.header with
    | req r => rfl
    | resp r =>
        have hcode : respCodeOf rp = r.code := by
          simp only [respCodeOf, hh]
        dsimp only
        rw [if_neg (fun hcontra => hne (by rw [hcode]; exact hcontra.2))]

def c8wDone : HTTPParser := { initReq with mode := PMode.end_ }

def c8wRDone : ResponseParser :=
  { respInit with parser := { respInit.parser with mode := PMode.end_ } }

/-- Witness for C8 (amended): `feed("")` leaves a completed request parser
and a completed non-interim response parser unchanged. -/
theorem c8_feed_empty_preserves_complete_witness :
    hfeed c8wDone [] = .ok (c8wDone, [])
    ∧ rfeed c8wRDone [] = .ok (c8wRDone, []) :=
  ⟨c8_feed_empty_preserves_complete.1 c8wDone rfl,
   c8_feed_empty_preserves_complete.2 c8wRDone rfl (by decide)⟩

/-! Helper facts about the feed pipeline (used to settle C6). -/

theorem feedHeadersLoop_nil (fuel : Nat) (p : HTTPParser) :
    feedHeadersLoop fuel p [] = .ok (p, []) := by
  cases fuel <;> rfl

theorem feedHeadersLoop_cons (fuel : Nat) (p : HTTPParser) (c : Char) (cs : Str) :
    feedHeadersLoop (fuel + 1) p (c :: cs) =
      match p.feed_line (c :: cs) with
      | (some line, p, text) =>
          match p.header.add_header line with
          | .error e => .error e
          | .ok h =>
              let p := { p with header := h }
              if line = crlfS then .ok ({ p with mode := PMode.body }, text)
              else feedHeadersLoop fuel p text
      | (none, p, text) => feedHeadersLoop fuel p text := rfl

theorem chunkLoop_nil (fuel : Nat) (cs : ChunkState) (p : HTTPParser) :
    chunkLoop fuel cs p [] = .ok (cs, p, []) := by
  cases fuel <;> rfl

theorem chunkLoop_cons (fuel : Nat) (cs : ChunkState) (p : HTTPParser)
    (c : Char) (rest : Str) :
    chunkLoop (fuel + 1) cs p (c :: rest) =
      match chunkStep cs p (c :: rest) with
      | .error e => .error e
      | .ok (cs, p, text, brk) =>
          if brk then .ok (cs, p, text) else chunkLoop fuel cs p text := rfl

theorem feed_line_mode (p : HTTPParser) (text : Str) :
    ((p.feed_line text).2.1).mode = p.mode := by
  rw [HTTPParser.feed_line]
  cases findCRLF text <;> rfl

theorem feed_line_none_leftover (p : HTTPParser) (text : Str)
    (pl : HTTPParser) (tl : Str) (h : p.feed_line text = (none, pl, tl)) :
    tl = [] := by
  rw [HTTPParser.feed_line] at h
  cases hf : findCRLF text with
  | none =>
      rw [hf] at h
      simp only [Prod.mk.injEq] at h
      exact h.2.2.symm
  | some k =>
      rw [hf] at h
      dsimp only at h
      simp only [Prod.mk.injEq] at h
      exact absurd h.1 (by simp)

theorem feedHeadersLoop_leftover (fuel : Nat) (p : HTTPParser) (text : Str)
    (q : HTTPParser) (t : Str)
    (h : feedHeadersLoop fuel p text = .ok (q, t)) (hne : t ≠ []) :
    q.mode = PMode.body := by
  induction fuel generalizing p text with
  | zero =>
      cases text with
      | nil =>
          rw [feedHeadersLoop_nil] at h
          simp only [Except.ok.injEq, Prod.mk.injEq] at h
          exact absurd h.2.symm hne
      | cons c cs =>
          have hz : feedHeadersLoop 0 p (c :: cs) = .error .noProgress := rfl
          rw [hz] at h
          exact Except.noConfusion h
  | succ fuel ih =>
      cases text with
      | nil =>
          rw [feedHeadersLoop_nil] at h
          simp only [Except.ok.injEq, Prod.mk.injEq] at h
          exact absurd h.2.symm hne
      | cons c cs =>
          rw [feedHeadersLoop_cons] at h
          rcases hfl : p.feed_line (c :: cs) with ⟨lineOpt, p1, t1⟩
          rw [hfl] at h
          cases lineOpt with
          | none => exact ih p1 t1 h
          | some line =>
              dsimp only at h
              cases hah : p1.header.add_header line with
              | error e => rw [hah] at h; exact Except.noConfusion h
              | ok hh =>
                  rw [hah] at h
                  dsimp only at h
                  by_cases hl : line = crlfS
                  · rw [if_pos hl] at h
                    simp only [Except.ok.injEq, Prod.mk.injEq] at h
                    rw [← h.1]
                  · rw [if_neg hl] at h
                    exact ih _ t1 h

theorem chunkStep_brk_end (cs : ChunkState) (p : HTTPParser) (text : Str)
    (cs' : ChunkState) (p' : HTTPParser) (t' : Str)
    (h : chunkStep cs p text = .ok (cs', p', t', true)) : p'.mode = PMode.end_ := by
  rw [chunkStep] at h
  cases h1 : chunkStart cs p text with
  | error e => rw [h1] at h; exact Except.noConfusion h
  | ok v =>
      rw [h1] at h
      obtain ⟨cs1, p1, t1⟩ := v
      dsimp only at h
      rcases hcd : chunkData cs1 p1 t1 with ⟨cs2, p2, t2⟩
      rw [hcd] at h
      dsimp only at h
      cases h3 : chunkTrailer cs2 p2 t2 with
      | error e => rw [h3] at h; exact Except.noConfusion h
      | ok w =>
          rw [h3] at h
          obtain ⟨cs3, p3, t3⟩ := w
          dsimp only at h
          by_cases hm : cs3.mode = CMode.end_
          · rw [if_pos hm] at h
            simp only [Except.ok.injEq, Prod.mk.injEq] at h
            rw [← h.2.1]
          · rw [if_neg hm] at h
            simp only [Except.ok.injEq, Prod.mk.injEq] at h
            exact absurd h.2.2.2 (by simp)

theorem chunkLoop_leftover (fuel : Nat) (cs : ChunkState) (p : HTTPParser)
    (text : Str) (cs' : ChunkState) (p' : HTTPParser) (t : Str)
    (h : chunkLoop fuel cs p text = .ok (cs', p', t)) (hne : t ≠ []) :
    p'.mode = PMode.end_ := by
  induction fuel generalizing cs p text with
  | zero =>
      cases text with
      | nil =>
          rw [chunkLoop_nil] at h
          simp only [Except.ok.injEq, Prod.mk.injEq] at h
          exact absurd h.2.2.symm hne
      | cons c rest =>
          have hz : chunkLoop 0 cs p (c :: rest) = .error .noProgress := rfl
          rw [hz] at h
          exact Except.noConfusion h
  | succ fuel ih =>
      cases text with
      | nil =>
          rw [chunkLoop_nil] at h
          simp only [Except.ok.injEq, Prod.mk.injEq] at h
          exact absurd h.2.2.symm hne
      | cons c rest =>
          rw [chunkLoop_cons] at h
          cases hs : chunkStep cs p (c :: rest) with
          | error e => rw [hs] at h; exact Except.noConfusion h
          | ok v =>
              rw [hs] at h
              obtain ⟨cs1, p1, t1, brk⟩ := v
              dsimp only at h
              cases brk with
              | true =>
                  rw [if_pos rfl] at h
                  simp only [Except.ok.injEq, Prod.mk.injEq] at h
                  rw [← h.2.1]
                  exact chunkStep_brk_end cs p (c :: rest) cs1 p1 t1 hs
              | false =>
                  rw [if_neg (by simp)] at h
                  exact ih cs1 p1 t1 h

theorem lengthFeed_leftover (r : Int) (p : HTTPParser) (text : Str)
    (r' : Int) (p' : HTTPParser) (t : Str)
    (h : lengthFeed r p text = (r', p', t)) (hne : t ≠ []) :
    p'.mode = PMode.end_ := by
  rw [lengthFeed] at h
  by_cases hr : r > 0
  · rw [if_pos hr] at h
    rw [HTTPParser.feed_length] at h
    dsimp only at h
    split at h
    · simp only [Prod.mk.injEq] at h
      rw [← h.2.1]
    · exfalso
      rename_i hle
      have htn : ((r.toNat : Nat) : Int) = r := Int.toNat_of_nonneg (le_of_lt hr)
      have hlen2 : text.length ≤ r.toNat := by
        by_contra hlt
        push_neg at hlt
        have htk : (List.take r.toNat text).length = r.toNat := by
          rw [List.length_take]
          omega
        apply hle
        rw [htk, htn]
        omega
      have hdrop : text.drop r.toNat = [] := List.drop_eq_nil_of_le hlen2
      simp only [Prod.mk.injEq] at h
      exact hne (h.2.2 ▸ hdrop)
  · rw [if_neg hr] at h
    dsimp only at h
    rw [if_pos (le_of_not_lt hr)] at h
    simp only [Prod.mk.injEq] at h
    rw [← h.2.1]

theorem stageBody_leftover (p : HTTPParser) (text : Str) (p' : HTTPParser) (t : Str)
    (h : stageBody p text = .ok (p', t)) (hne : t ≠ []) :
    p'.mode = PMode.end_
      ∨ (p' = p ∧ t = text ∧ ¬(text ≠ [] ∧ p.mode = PMode.body)) := by
  rw [stageBody] at h
  split at h
  · left
    rename_i hc
    cases hbr : p.body_reader with
    | none =>
        rw [hbr] at h
        simp only [Except.ok.injEq, Prod.mk.injEq] at h
        exact absurd h.2.symm hne
    | some rd =>
        rw [hbr] at h
        cases rd with
        | chunked cs =>
            dsimp only at h
            cases hcl : chunkLoop (text.length + 1) cs p text with
            | error e => rw [hcl] at h; exact Except.noConfusion h
            | ok v =>
                rw [hcl] at h
                obtain ⟨cs2, p2, t2⟩ := v
                dsimp only at h
                simp only [Except.ok.injEq, Prod.mk.injEq] at h
                have ht2 : t2 ≠ [] := by rw [h.2]; exact hne
                have := chunkLoop_leftover (text.length + 1) cs p text cs2 p2 t2 hcl ht2
                rw [← h.1]
                exact this
        | length r =>
            dsimp only at h
            rcases hlf : lengthFeed r p text with ⟨r2, p2, t2⟩
            rw [hlf] at h
            dsimp only at h
            simp only [Except.ok.injEq, Prod.mk.injEq] at h
            have ht2 : t2 ≠ [] := by rw [h.2]; exact hne
            have := lengthFeed_leftover r p text r2 p2 t2 hlf ht2
            rw [← h.1]
            exact this
  · right
    rename_i hc
    simp only [Except.ok.injEq, Prod.mk.injEq] at h
    exact ⟨h.1.symm, h.2.symm, hc⟩

theorem stageHeaders_leftover (p : HTTPParser) (text : Str) (p' : HTTPParser) (t : Str)
    (h : stageHeaders p text = .ok (p', t)) (hne : t ≠ []) :
    p'.mode = PMode.end_ ∨ p'.mode = PMode.body
      ∨ (p' = p ∧ t = text ∧ p.mode ≠ PMode.headers) := by
  rw [stageHeaders] at h
  split at h
  · rename_i hc
    cases hfh : p.feed_headers text with
    | error e => rw [hfh] at h; exact Except.noConfusion h
    | ok v =>
        rw [hfh] at h
        obtain ⟨q, t1⟩ := v
        dsimp only at h
        split at h
        · rename_i hq
          split at h
          · simp only [Except.ok.injEq, Prod.mk.injEq] at h
            left
            rw [← h.1]
          · split at h
            · simp only [Except.ok.injEq, Prod.mk.injEq] at h
              right; left
              rw [← h.1]
              exact hq
            · split at h
              · simp only [Except.ok.injEq, Prod.mk.injEq] at h
                right; left
                rw [← h.1]
                exact hq
              · simp only [Except.ok.injEq, Prod.mk.injEq] at h
                right; left
                rw [← h.1]
                exact hq
        · rename_i hq
          simp only [Except.ok.injEq, Prod.mk.injEq] at h
          have ht1 : t1 ≠ [] := by rw [h.2]; exact hne
          rw [HTTPParser.feed_headers] at hfh
          exact absurd (feedHeadersLoop_leftover (text.length + 1) p text q t1 hfh ht1) hq
  · rename_i hc
    simp only [Except.ok.injEq, Prod.mk.injEq] at h
    right; right
    refine ⟨h.1.symm, h.2.symm, ?_⟩
    intro hm
    apply hc
    constructor
    · rw [← h.2] at hne
      exact fun hx => hne hx
    · exact hm

/-- C6 amended: for every `feed` call, a non-empty returned leftover implies
the parser is complete on return, unless the feed merely consumed a leading
blank line while in `start` (the parser stays in `start`), or the parser was
already in the terminal `incomplete` state when fed. -/
theorem c6_leftover_only_on_completion (p : HTTPParser) (text : Str)
    (p' : HTTPParser) (left : Str)
    (h : hfeed p text = .ok (p', left)) (hne : left ≠ []) :
    p'.complete = true ∨ (p.mode = PMode.start ∧ p'.mode = PMode.start)
      ∨ p.mode = PMode.incomplete := by
  rw [hfeed] at h
  cases h1 : stageStart p text with
  | error e => rw [h1] at h; exact Except.noConfusion h
  | ok v =>
      rw [h1] at h
      obtain ⟨p1, t1⟩ := v
      dsimp only at h
      cases h2 : stageHeaders p1 t1 with
      | error e => rw [h2] at h; exact Except.noConfusion h
      | ok w =>
          rw [h2] at h
          obtain ⟨p2, t2⟩ := w
          dsimp only at h
          rcases stageBody_leftover p2 t2 p' left h hne with hend | ⟨hpe, hte, hnb⟩
          · left
            rw [HTTPParser.complete, hend]
            simp
          · have ht2ne : t2 ≠ [] := by rw [← hte]; exact hne
            have hp2nb : p2.mode ≠ PMode.body := fun hb => hnb ⟨ht2ne, hb⟩
            rcases stageHeaders_leftover p1 t1 p2 t2 h2 ht2ne with hq1 | hq2 | ⟨hqe, hqt, hq3⟩
            · left
              rw [HTTPParser.complete, hpe, hq1]
              simp
            · exact absurd hq2 hp2nb
            · have ht1ne : t1 ≠ [] := by rw [← hqt]; exact ht2ne
              rw [stageStart] at h1
              split at h1
              · rename_i hc
                rw [HTTPParser.feed_start] at h1
                rcases hfl : p.feed_line text with ⟨lineOpt, pl, tl⟩
                rw [hfl] at h1
                cases lineOpt with
                | some line =>
                    dsimp only at h1
                    split at h1
                    · cases hssl : pl.header.set_start_line line with
                      | error e => rw [hssl] at h1; exact Except.noConfusion h1
                      | ok hh =>
                          rw [hssl] at h1
                          simp only [Except.ok.injEq, Prod.mk.injEq] at h1
                          exact absurd (by rw [← h1.1]) hq3
                    · simp only [Except.ok.injEq, Prod.mk.injEq] at h1
                      right; left
                      have hplm := feed_line_mode p text
                      rw [hfl] at hplm
                      dsimp only at hplm
                      refine ⟨hc.2, ?_⟩
                      rw [hpe, hqe, ← h1.1, hplm]
                      exact hc.2
                | none =>
                    dsimp only at h1
                    simp only [Except.ok.injEq, Prod.mk.injEq] at h1
                    have htl : tl = [] := feed_line_none_leftover p text pl tl hfl
                    exact absurd (h1.2.symm.trans htl) ht1ne
              · rename_i hc
                simp only [Except.ok.injEq, Prod.mk.injEq] at h1
                have hns : p.mode ≠ PMode.start := by
                  intro hs
                  exact hc ⟨by rw [h1.2]; exact ht1ne, hs⟩
                rw [← h1.1] at hq3
                rw [hqe, ← h1.1] at hp2nb
                cases hpm : p.mode with
                | start => exact absurd hpm hns
                | headers => exact absurd hpm hq3
                | body => exact absurd hpm hp2nb
                | end_ =>
                    left
                    rw [HTTPParser.complete, hpe, hqe, ← h1.1, hpm]
                    simp
                | incomplete =>
                    right; right
                    rfl

/-! Helper facts for C10 (the chunk-terminator line). -/

theorem findCRLF_no_cr (junk : Str) (rest : Str) (hr : '\r' ∉ junk) :
    findCRLF (junk ++ '\r' :: '\n' :: rest) = some junk.length := by
  induction junk with
  | nil =>
      rw [List.nil_append, findCRLF]
      simp
  | cons c cs ih =>
      have hc : c ≠ '\r' := fun he => hr (he ▸ List.mem_cons_self c cs)
      rw [List.cons_append, findCRLF,
          if_neg (fun hand => hc hand.1),
          ih (fun hm => hr (List.mem_cons_of_mem c hm))]
      rfl

theorem takeLine_no_lf (junk : Str) (hn : '\n' ∉ junk) :
    takeLine (junk ++ '\r' :: '\n' :: []) = junk ++ '\r' :: '\n' :: [] := by
  induction junk with
  | nil => rfl
  | cons c cs ih =>
      have hc : c ≠ '\n' := fun he => hn (he ▸ List.mem_cons_self c cs)
      rw [List.cons_append, takeLine, if_neg hc,
          ih (fun hm => hn (List.mem_cons_of_mem c hm))]

theorem chunkLoop_ne (fuel : Nat) (cs : ChunkState) (p : HTTPParser) (text : Str)
    (hne : text ≠ []) :
    chunkLoop (fuel + 1) cs p text =
      match chunkStep cs p text with
      | .error e => .error e
      | .ok (cs, p, text, brk) =>
          if brk then .ok (cs, p, text) else chunkLoop fuel cs p text := by
  cases text with
  | nil => exact absurd rfl hne
  | cons c rest => exact chunkLoop_cons fuel cs p c rest

/-- The parser state after the chunk reader consumes a terminator line
`junk ++ CRLF` from a buffer whose cursor sits at the end of its log. -/
def junkAdvance (p : HTTPParser) (junk : Str) : HTTPParser :=
  { p with
      buffer := { data := p.buffer.data ++ (junk ++ crlfS),
                  pos := p.buffer.data.length + (junk.length + 2) },
      offset := p.buffer.data.length + (junk.length + 2) }

/-- C10: with a chunk's declared data fully consumed (reader state `chunk`
with 0 remaining) and the parse cursor at the end of the buffer log, the
chunked reader accepts ANY complete CRLF-terminated line — arbitrary
CR/LF-free bytes before the CRLF — as the chunk's trailing terminator:
the whole line is consumed without error and the reader returns to the
chunk-size state. -/
theorem c10_any_crlf_terminated_line_ends_chunk (junk : Str) (p : HTTPParser)
    (hr : '\r' ∉ junk) (hn : '\n' ∉ junk)
    (hpos : p.buffer.pos = p.buffer.data.length)
    (hoff : p.offset = p.buffer.data.length) :
    chunkLoop (junk.length + 3) { mode := CMode.chunk, remaining := 0 } p (junk ++ crlfS)
      = .ok ({ mode := CMode.start, remaining := 0 }, junkAdvance p junk, []) := by
  have hne : junk ++ crlfS ≠ [] := by simp [crlfS]
  have hlen : (junk ++ crlfS).length = junk.length + 2 := by simp [crlfS]
  have hfl : p.feed_line (junk ++ crlfS) =
      (some (junk ++ crlfS), junkAdvance p junk, []) := by
    rw [HTTPParser.feed_line]
    have hfind : findCRLF (junk ++ crlfS) = some junk.length := findCRLF_no_cr junk [] hr
    rw [hfind]
    dsimp only
    have htake : (junk ++ crlfS).take (junk.length + 2) = junk ++ crlfS := by
      rw [← hlen, List.take_length]
    have hdropt : (junk ++ crlfS).drop (junk.length + 2) = [] := by
      rw [← hlen, List.drop_length]
    rw [htake, hdropt, StrBuf.write, hpos, List.take_length]
    have hdropb : p.buffer.data.drop (p.buffer.data.length + (junk ++ crlfS).length) = [] :=
      List.drop_eq_nil_of_le (Nat.le_add_right _ _)
    rw [hdropb, List.append_nil, StrBuf.seek, StrBuf.readline]
    dsimp only
    rw [hoff, List.drop_left]
    have htl : takeLine (junk ++ crlfS) = junk ++ crlfS := takeLine_no_lf junk hn
    rw [htl, hlen]
    rfl
  have h1 : chunkStart { mode := CMode.chunk, remaining := 0 } p (junk ++ crlfS)
      = .ok ({ mode := CMode.chunk, remaining := 0 }, p, junk ++ crlfS) := by
    rw [chunkStart, if_neg (by decide)]
  have h2 : chunkData { mode := CMode.chunk, remaining := 0 } p (junk ++ crlfS)
      = ({ mode := CMode.start, remaining := 0 }, junkAdvance p junk, []) := by
    rw [chunkData, if_pos ⟨hne, rfl⟩]
    dsimp only
    simp only [if_neg (show ¬((0 : Int) > 0) by decide)]
    rw [if_pos trivial, hfl]
    dsimp only
    rw [if_pos hne]
  have h3 : chunkTrailer { mode := CMode.start, remaining := 0 } (junkAdvance p junk) []
      = .ok ({ mode := CMode.start, remaining := 0 }, junkAdvance p junk, []) := by
    rw [chunkTrailer, if_neg (by simp)]
  have hstep : chunkStep { mode := CMode.chunk, remaining := 0 } p (junk ++ crlfS)
      = .ok ({ mode := CMode.start, remaining := 0 }, junkAdvance p junk, [], false) := by
    rw [chunkStep, h1]
    dsimp only
    rw [h2]
    dsimp only
    rw [h3]
    dsimp only
    rw [if_neg (by decide)]
  have hf3 : junk.length + 3 = (junk.length + 2) + 1 := rfl
  rw [hf3, chunkLoop_ne (junk.length + 2) _ p _ hne, hstep]
  dsimp only
  rw [if_neg (by decide), chunkLoop_nil]

def c10st : HTTPParser :=
  okState (hfeed initReq (c7head ++ "4\r\nWiki".data)) initReq

/-- Witness for C10: a parser that consumed a chunked message through the
4 data bytes of its first chunk accepts the garbage terminator line
`"JUNK\r\n"`, consuming it entirely and returning the reader to the
chunk-size state. -/
theorem c10_any_crlf_terminated_line_ends_chunk_witness :
    chunkLoop ("JUNK".data.length + 3) { mode := CMode.chunk, remaining := 0 }
        c10st ("JUNK".data ++ crlfS)
      = .ok ({ mode := CMode.start, remaining := 0 }, junkAdvance c10st "JUNK".data, []) :=
  c10_any_crlf_terminated_line_ends_chunk "JUNK".data c10st (by decide) (by decide)
    (by decide) (by decide)

/-- Witness for C6 (amended): a parser already complete returns the fed
bytes unchanged, and the amended property holds there. -/
theorem c6_leftover_only_on_completion_witness :
    c8wDone.complete = true
      ∨ (c8wDone.mode = PMode.start ∧ c8wDone.mode = PMode.start)
      ∨ c8wDone.mode = PMode.incomplete :=
  c6_leftover_only_on_completion c8wDone "X".data c8wDone "X".data rfl (by decide)
